import Mathlib

/-!
Verification development for the in-browser LaTeX section editor
(`ui-render.js`): the section-tree renderer, the snapshot history engine
(push / undo / redo / restore), the file-loading session logic and the
debounced edit capture, embedded shallowly as Lean functions.
-/

namespace LatexUI

/-- A parsed section node, as produced by the external parser and consumed
by `renderNode`: nesting `level`, raw `title`, editable `content`, and the
ordered `children`. -/
inductive SectionNode where
  | mk (level : Nat) (title : String) (content : String)
       (children : List SectionNode)

def SectionNode.level : SectionNode → Nat
  | .mk l _ _ _ => l

def SectionNode.title : SectionNode → String
  | .mk _ t _ _ => t

def SectionNode.content : SectionNode → String
  | .mk _ _ c _ => c

def SectionNode.children : SectionNode → List SectionNode
  | .mk _ _ _ cs => cs

-- Document-order list of the editable contents of a forest of nodes:
-- each node contributes its own content first, then its children's
-- (pre-order), matching how `renderNode` appends the content div before
-- the nested container and `querySelectorAll` walks the DOM.
mutual
def flattenContents : SectionNode → List String
  | .mk _ _ c cs => c :: flattenForest cs
def flattenForest : List SectionNode → List String
  | [] => []
  | n :: ns => flattenContents n ++ flattenForest ns
end

/-! ### Title cleaning

The source sets the visible title with
`node.title.replace(/\a-zA-Z]+\{([^}]+)\}/g, '$1')`.
In a JavaScript regex the escape `\a` is the identity escape for the letter
`a` and `-`, `z`, `A`, `Z` stand for themselves because no character class
was opened, so the pattern matches: the literal six characters `a-zA-Z`,
then one or more `]`, then a brace-delimited run of one or more
non-closing-brace characters, replaced globally by the captured run.
`cleanTitle` is that replacement, implemented over the character list. -/

/-- Number of leading `]` characters. -/
def countBrackets : List Char → Nat
  | ']' :: cs => countBrackets cs + 1
  | _ => 0

/-- Try to match the (mangled) regex at the head of the list; on success
return the captured argument characters and the remainder after the match. -/
def tryMatch : List Char → Option (List Char × List Char)
  | 'a' :: '-' :: 'z' :: 'A' :: '-' :: 'Z' :: rest =>
    let nb := countBrackets rest
    if nb = 0 then none
    else
      match rest.drop nb with
      | '{' :: rest2 =>
        let cap := rest2.takeWhile (fun c => c ≠ '}')
        if cap.isEmpty then none
        else
          match rest2.drop cap.length with
          | '}' :: rest3 => some (cap, rest3)
          | _ => none
      | _ => none
  | _ => none

/-- Global left-to-right regex replacement: at each position try the
pattern; on a match emit the capture and resume after it, otherwise copy
one character. `fuel` bounds the recursion (the input length suffices,
since every step consumes at least one character). -/
def replaceLoop : Nat → List Char → List Char
  | 0, cs => cs
  | _ + 1, [] => []
  | fuel + 1, c :: cs =>
    match tryMatch (c :: cs) with
    | some (cap, rest) => cap ++ replaceLoop fuel rest
    | none => c :: replaceLoop fuel cs

/-- The title-cleaning actually performed by the source line
`titleSpan.textContent = node.title.replace(...)`. -/
def cleanTitle (s : String) : String :=
  String.mk (replaceLoop s.data.length s.data)

/-- Modelled from the spec: the intended title cleaning, which "strips
simple one-argument markup wrappers (pattern command-brace-argument-brace)
from the title, keeping only the argument text, for every occurrence".
A wrapper is one or more letters immediately followed by a braced run of
non-brace characters. -/
def countLetters : List Char → Nat
  | c :: cs => if c.isAlpha then countLetters cs + 1 else 0
  | _ => 0

/-- Modelled from the spec: match one markup wrapper at the head of the
list, returning the argument text and the remainder. -/
def tryMatchSpec : List Char → Option (List Char × List Char) :=
  fun cs =>
    let nl := countLetters cs
    if nl = 0 then none
    else
      match cs.drop nl with
      | '{' :: rest2 =>
        let cap := rest2.takeWhile (fun c => c ≠ '}')
        if cap.isEmpty then none
        else
          match rest2.drop cap.length with
          | '}' :: rest3 => some (cap, rest3)
          | _ => none
      | _ => none

/-- Modelled from the spec: global replacement of every markup wrapper by
its argument text. -/
def replaceLoopSpec : Nat → List Char → List Char
  | 0, cs => cs
  | _ + 1, [] => []
  | fuel + 1, c :: cs =>
    match tryMatchSpec (c :: cs) with
    | some (cap, rest) => cap ++ replaceLoopSpec fuel rest
    | none => c :: replaceLoopSpec fuel cs

/-- Modelled from the spec: the intended `cleanTitle`. -/
def cleanTitleSpec (s : String) : String :=
  String.mk (replaceLoopSpec s.data.length s.data)

/-! ### Section renderer -/

/-- The visual block built by `renderNode` for one section: the `number`
argument it received, the text of its number span and title span, the
initial editable content, and the rendered children in order. -/
inductive RenderedBlock where
  | mk (number : String) (numberText : String) (titleText : String)
       (content : String) (children : List RenderedBlock)

def RenderedBlock.number : RenderedBlock → String
  | .mk n _ _ _ _ => n

def RenderedBlock.numberText : RenderedBlock → String
  | .mk _ t _ _ _ => t

def RenderedBlock.titleText : RenderedBlock → String
  | .mk _ _ t _ _ => t

def RenderedBlock.content : RenderedBlock → String
  | .mk _ _ _ c _ => c

def RenderedBlock.children : RenderedBlock → List RenderedBlock
  | .mk _ _ _ _ cs => cs

instance : Inhabited RenderedBlock := ⟨.mk "" "" "" "" []⟩

-- `LatexEditor.renderNode(node, number)`: the number span shows `number`
-- followed by a space when `node.level > 0` and is empty otherwise; the
-- title span shows the cleaned title; each child at 0-based index `idx`
-- is rendered with number `number ++ "." ++ toString (idx + 1)` (the
-- helper `renderChildren` carries the 1-based counter).
mutual
def renderNode : SectionNode → String → RenderedBlock
  | .mk lvl title content cs, number =>
    .mk number (if lvl > 0 then number ++ " " else "") (cleanTitle title)
      content (renderChildren cs number 1)
def renderChildren : List SectionNode → String → Nat → List RenderedBlock
  | [], _, _ => []
  | n :: ns, p, j => renderNode n (p ++ "." ++ toString j) :: renderChildren ns p (j + 1)
end

/-- Top-level loop of `render`: node at 0-based index `idx` gets number
`toString (idx + 1)`; the helper carries the 1-based counter. -/
def renderTop : List SectionNode → Nat → List RenderedBlock
  | [], _ => []
  | n :: ns, i => renderNode n (toString i) :: renderTop ns (i + 1)

/-- The forest of blocks produced by `render` for a non-empty node list. -/
def renderForest (ns : List SectionNode) : List RenderedBlock :=
  renderTop ns 1

/-! ### Editor state and the history engine -/

/-- The observable state of a `LatexEditor` instance: the parsed `nodes`,
the current text of every editable content region in document order
(`regions`, the innerHTML of each section-content div), the history
`entries` with the `historyIndex` cursor (an integer, `-1` when the log is
empty), whether the "no sections found" placeholder is currently shown,
and the last transient status message. -/
structure EditorState where
  nodes : List SectionNode
  regions : List String
  entries : List (List String)
  historyIndex : Int
  placeholderShown : Bool
  status : String

/-- The state of a freshly constructed `LatexEditor`: empty history,
cursor `-1`, nothing rendered. -/
def emptyEditor : EditorState :=
  { nodes := [], regions := [], entries := [], historyIndex := -1,
    placeholderShown := false, status := "" }

/-- `LatexEditor.pushHistory()`: snapshot the current regions; if the
cursor is valid and the snapshot is deep-equal to the entry at the cursor,
do nothing; otherwise truncate the log to the entries up to the cursor,
append the snapshot and advance the cursor. -/
def pushHistory (st : EditorState) : EditorState :=
  let snapshot := st.regions
  if 0 ≤ st.historyIndex ∧ st.entries[st.historyIndex.toNat]? = some snapshot then
    st
  else
    { st with entries := st.entries.take (st.historyIndex + 1).toNat ++ [snapshot],
              historyIndex := st.historyIndex + 1 }

/-- `LatexEditor.restoreHistory()`: write entry `historyIndex` back into
the content regions — region `i` receives `snapshot[i]` with the
JavaScript or-else-empty fallback, i.e. the empty string when the snapshot
is shorter than the region list (and an empty snapshot cell stays empty,
since the empty string is falsy and the fallback is also empty). -/
def restoreHistory (st : EditorState) : EditorState :=
  let snapshot := st.entries.getD st.historyIndex.toNat []
  { st with regions := (List.range st.regions.length).map (fun i => snapshot.getD i "") }

/-- `LatexEditor.undo()`: only when the cursor is positive, decrement it,
restore that entry and show the status message; otherwise do nothing. -/
def undo (st : EditorState) : EditorState :=
  if 0 < st.historyIndex then
    { restoreHistory { st with historyIndex := st.historyIndex - 1 } with
        status := "Undo successful" }
  else st

/-- `LatexEditor.redo()`: only when the cursor is strictly below the last
entry, increment it, restore that entry and show the status message;
otherwise do nothing. -/
def redo (st : EditorState) : EditorState :=
  if st.historyIndex < (st.entries.length : Int) - 1 then
    { restoreHistory { st with historyIndex := st.historyIndex + 1 } with
        status := "Redo successful" }
  else st

/-- `LatexEditor.render()`: clear the container; with no nodes, show the
"no sections found" placeholder (leaving no editable regions); otherwise
build the blocks, whose content regions are the document-order flattening
of the nodes' contents. -/
def render (st : EditorState) : EditorState :=
  if st.nodes.isEmpty then
    { st with regions := [], placeholderShown := true }
  else
    { st with regions := flattenForest st.nodes, placeholderShown := false }

/-! ### Session controller: loading a file -/

/-- An uploaded file as `loadFile` sees it: MIME type, name, text. -/
structure UploadedFile where
  ftype : String
  fname : String
  ftext : String

/-- Substring containment, modelling JavaScript `String.includes`. -/
def strIncludes (s pat : String) : Bool :=
  s.data.tails.any (fun t => pat.data.isPrefixOf t)

/-- The file-type guard of `loadFile`: accepted when the MIME type
contains `text/` or the name ends in `.tex`. -/
def fileAccepted (f : UploadedFile) : Bool :=
  strIncludes f.ftype "text/" || f.fname.endsWith ".tex"

/-- Outcome of the external parser on the loaded text: the global
`parseLatex` is missing, it throws, or it returns a forest. -/
inductive ParserOutcome where
  | absent
  | throws
  | returns (nodes : List SectionNode)

/-- `LatexEditor.loadFile(event)`: reject non-text files; reject text over
1,000,000 characters; otherwise set `nodes` from the parser (empty when
the parser is absent), render and push the initial snapshot. A parser
exception is caught by the surrounding try/catch: the state keeps its old
nodes and regions and only the error status message is shown. -/
def loadFile (f : UploadedFile) (parser : ParserOutcome) (st : EditorState) : EditorState :=
  if ¬ fileAccepted f then
    { st with status := "Please upload a valid LaTeX (.tex) file" }
  else if 1000000 < f.ftext.length then
    { st with status := "File too large (max 1MB)" }
  else
    match parser with
    | .throws =>
        { st with status := "Error loading file. Please check console for details." }
    | .absent =>
        { pushHistory (render { st with nodes := [] }) with
            status := "File loaded successfully" }
    | .returns ns =>
        { pushHistory (render { st with nodes := ns }) with
            status := "File loaded successfully" }

/-! ### Debounced edit capture

`renderNode` wires every content region's input event to
`clearTimeout(this.debounceTimer); this.debounceTimer = setTimeout(() =>
this.pushHistory(), 500)`. The timer is a single field of the editor, so
any input event replaces whatever push was pending, whichever region
scheduled it. We model virtual time in milliseconds: the editor together
with the pending fire time, input events as (time, region index, new
region text), and a run that fires a due timer before handling the next
event and lets any remaining timer fire at the end. -/

/-- Editor plus the pending debounce timer (the virtual time at which the
scheduled `pushHistory` fires), if any. -/
structure TimedEditor where
  ed : EditorState
  debounceTimer : Option Nat

/-- An input event at time `t` on region `i` leaving it with text `v`:
the DOM mutation happens, the pending timer (if any) is cleared, and a
push is scheduled 500 ms later. -/
def applyInput (t : Nat) (i : Nat) (v : String) (te : TimedEditor) : TimedEditor :=
  { ed := { te.ed with regions := te.ed.regions.set i v },
    debounceTimer := some (t + 500) }

/-- Fire the pending debounced push if its time has arrived by time `t`. -/
def fireDue (t : Nat) (te : TimedEditor) : TimedEditor :=
  match te.debounceTimer with
  | some ft =>
      if ft ≤ t then { ed := pushHistory te.ed, debounceTimer := none } else te
  | none => te

/-- Fire whatever timer is still pending (the end of the run, with time
running out past every scheduled instant). -/
def flushTimer (te : TimedEditor) : TimedEditor :=
  match te.debounceTimer with
  | some _ => { ed := pushHistory te.ed, debounceTimer := none }
  | none => te

/-- Process a time-ordered list of input events, firing any due timer
before each event, and flush the remaining timer at the end. -/
def runInputs : List (Nat × Nat × String) → TimedEditor → TimedEditor
  | [], te => flushTimer te
  | (t, i, v) :: evs, te => runInputs evs (applyInput t i v (fireDue t te))

/-! ### Shared concrete fixtures -/

/-- A plainly accepted upload. -/
def fileA : UploadedFile := ⟨"text/plain", "a.tex", "src"⟩

/-- A one-section document whose only region text is `a`. -/
def docA : List SectionNode := [.mk 1 "A" "a" []]

/-- A one-section document whose only region text is `b`. -/
def docB : List SectionNode := [.mk 1 "B" "b" []]

/-- A two-section document (regions `a` and `b`). -/
def docC : List SectionNode := [.mk 1 "A" "a" [], .mk 1 "B" "b" []]

/-! ### General lemmas about the history engine -/

/-- One push grows the log by at most one entry. -/
lemma pushHistory_length_le (st : EditorState) :
    (pushHistory st).entries.length ≤ st.entries.length + 1 := by
  by_cases hg : 0 ≤ st.historyIndex ∧ st.entries[st.historyIndex.toNat]? = some st.regions
  · have he : pushHistory st = st := by
      simp only [pushHistory]
      rw [if_pos hg]
    rw [he]
    omega
  · have he : (pushHistory st).entries
        = st.entries.take (st.historyIndex + 1).toNat ++ [st.regions] := by
      simp only [pushHistory]
      rw [if_neg hg]
    rw [he]
    simp only [List.length_append, List.length_take, List.length_singleton]
    omega

/-- The two components of `pushHistory` in the appending branch. -/
lemma pushHistory_append (st : EditorState)
    (hg : ¬ (0 ≤ st.historyIndex ∧ st.entries[st.historyIndex.toNat]? = some st.regions)) :
    (pushHistory st).entries = st.entries.take (st.historyIndex + 1).toNat ++ [st.regions] ∧
    (pushHistory st).historyIndex = st.historyIndex + 1 ∧
    (pushHistory st).regions = st.regions := by
  simp only [pushHistory]
  rw [if_neg hg]
  exact ⟨rfl, rfl, rfl⟩

/-- `pushHistory` is the identity in the deep-equality branch. -/
lemma pushHistory_noop (st : EditorState)
    (hg : 0 ≤ st.historyIndex ∧ st.entries[st.historyIndex.toNat]? = some st.regions) :
    pushHistory st = st := by
  simp only [pushHistory]
  rw [if_pos hg]

/-- What `undo` does when the cursor is positive. -/
lemma undo_active (st : EditorState) (hu : 0 < st.historyIndex) :
    (undo st).entries = st.entries ∧ (undo st).historyIndex = st.historyIndex - 1 ∧
    (undo st).regions = (List.range st.regions.length).map
      (fun i => (st.entries.getD (st.historyIndex - 1).toNat []).getD i "") ∧
    (undo st).nodes = st.nodes := by
  simp only [undo, restoreHistory]
  rw [if_pos hu]
  exact ⟨rfl, rfl, rfl, rfl⟩

/-- What `redo` does when the cursor is strictly below the last entry. -/
lemma redo_active (st : EditorState) (hr : st.historyIndex < (st.entries.length : Int) - 1) :
    (redo st).entries = st.entries ∧ (redo st).historyIndex = st.historyIndex + 1 ∧
    (redo st).regions = (List.range st.regions.length).map
      (fun i => (st.entries.getD (st.historyIndex + 1).toNat []).getD i "") ∧
    (redo st).nodes = st.nodes := by
  simp only [redo, restoreHistory]
  rw [if_pos hr]
  exact ⟨rfl, rfl, rfl, rfl⟩

/-- `undo` is the identity when the cursor is at most zero. -/
lemma undo_noop (st : EditorState) (hu : ¬ 0 < st.historyIndex) : undo st = st := by
  simp only [undo]
  rw [if_neg hu]

/-- `redo` is the identity when the cursor is at or past the last entry. -/
lemma redo_noop (st : EditorState) (hr : ¬ st.historyIndex < (st.entries.length : Int) - 1) :
    redo st = st := by
  simp only [redo]
  rw [if_neg hr]

/-- The deep-equality guard of `pushHistory`, as a named proposition. -/
def pushGuard (st : EditorState) : Prop :=
  0 ≤ st.historyIndex ∧ st.entries[st.historyIndex.toNat]? = some st.regions

/-- Looking up an appended element at the length of the prefix. -/
lemma getElem?_append_singleton {α : Type} {l : List α} {a : α} {n : Nat}
    (h : l.length = n) : (l ++ [a])[n]? = some a := by
  subst h
  exact List.getElem?_concat_length l a

/-- The history invariant claimed in the spec: the cursor is `-1` exactly
when the log is empty, and a valid index into it otherwise. -/
def HistInvariant (st : EditorState) : Prop :=
  (st.entries = [] ↔ st.historyIndex = -1) ∧
  (st.entries ≠ [] → 0 ≤ st.historyIndex ∧ st.historyIndex ≤ (st.entries.length : Int) - 1)

/-! ### Claim theorems -/

/-- Claim C2: the source line is supposed to strip one-argument markup
wrappers from titles, but its regex lost the opening bracket of its
character class, so it only matches the literal text of the mangled
pattern; the title emph-brace-Intro-brace is rendered unchanged, while the
behaviour the spec describes (modelled by `cleanTitleSpec`) would render
it as Intro. -/
theorem title_cleaning_is_broken :
    (renderNode (.mk 1 "emph{Intro}" "body" []) "1").titleText = "emph{Intro}" ∧
    cleanTitleSpec "emph{Intro}" = "Intro" := by
  constructor
  · rfl
  · rfl

/-- Claim C8: `undo` is a silent no-op when the cursor is at most zero and
otherwise decrements the cursor and restores that snapshot into the
regions; `redo` is a silent no-op when the cursor is at or past the last
entry and otherwise increments the cursor and restores that snapshot. -/
theorem undo_redo_guards (st : EditorState) :
    (st.historyIndex ≤ 0 → undo st = st) ∧
    (0 < st.historyIndex →
      (undo st).historyIndex = st.historyIndex - 1 ∧
      (undo st).entries = st.entries ∧
      (undo st).regions = (List.range st.regions.length).map
        (fun i => (st.entries.getD (st.historyIndex - 1).toNat []).getD i "")) ∧
    ((st.entries.length : Int) - 1 ≤ st.historyIndex → redo st = st) ∧
    (st.historyIndex < (st.entries.length : Int) - 1 →
      (redo st).historyIndex = st.historyIndex + 1 ∧
      (redo st).entries = st.entries ∧
      (redo st).regions = (List.range st.regions.length).map
        (fun i => (st.entries.getD (st.historyIndex + 1).toNat []).getD i "")) := by
  refine ⟨fun h => ?_, fun h => ?_, fun h => ?_, fun h => ?_⟩
  · exact undo_noop st (by omega)
  · obtain ⟨he, hi, hr, _⟩ := undo_active st h
    exact ⟨hi, he, hr⟩
  · exact redo_noop st (by omega)
  · obtain ⟨he, hi, hr, _⟩ := redo_active st h
    exact ⟨hi, he, hr⟩

/-- Witness for C8 at a concrete state: with a single entry and the cursor
at zero, both `undo` and `redo` are no-ops. -/
theorem undo_redo_guards_witness :
    undo { emptyEditor with entries := [["a"]], historyIndex := 0 }
      = { emptyEditor with entries := [["a"]], historyIndex := 0 } ∧
    redo { emptyEditor with entries := [["a"]], historyIndex := 0 }
      = { emptyEditor with entries := [["a"]], historyIndex := 0 } := by
  refine ⟨(undo_redo_guards _).1 (by decide), (undo_redo_guards _).2.2.1 ?_⟩
  show (1 : Int) - 1 ≤ 0
  decide

/-- The history invariant, restated arithmetically over the log length. -/
lemma histInv_arith (st : EditorState) :
    HistInvariant st ↔
      -1 ≤ st.historyIndex ∧ st.historyIndex ≤ (st.entries.length : Int) - 1 ∧
      (st.historyIndex = -1 ↔ st.entries.length = 0) := by
  unfold HistInvariant
  simp only [ne_eq, ← List.length_eq_zero]
  omega

/-- Claim C5: `pushHistory`, `undo` and `redo` each preserve the history
invariant (`cursor = -1` exactly on an empty log, and a valid index
otherwise). -/
theorem history_ops_preserve_invariant (st : EditorState) (h : HistInvariant st) :
    HistInvariant (pushHistory st) ∧ HistInvariant (undo st) ∧ HistInvariant (redo st) := by
  rw [histInv_arith] at h
  obtain ⟨h1, h2, h3⟩ := h
  refine ⟨?_, ?_, ?_⟩
  · rw [histInv_arith]
    by_cases hg : 0 ≤ st.historyIndex ∧ st.entries[st.historyIndex.toNat]? = some st.regions
    · rw [pushHistory_noop st hg]
      exact ⟨h1, h2, h3⟩
    · obtain ⟨he, hi, _⟩ := pushHistory_append st hg
      rw [he, hi]
      simp only [List.length_append, List.length_take, List.length_singleton]
      omega
  · rw [histInv_arith]
    by_cases hu : 0 < st.historyIndex
    · obtain ⟨he, hi, _, _⟩ := undo_active st hu
      rw [he, hi]
      omega
    · rw [undo_noop st hu]
      exact ⟨h1, h2, h3⟩
  · rw [histInv_arith]
    by_cases hr : st.historyIndex < (st.entries.length : Int) - 1
    · obtain ⟨he, hi, _, _⟩ := redo_active st hr
      rw [he, hi]
      omega
    · rw [redo_noop st hr]
      exact ⟨h1, h2, h3⟩

/-- Witness for C5: the invariant holds for the empty editor and is
preserved by the three operations there. -/
theorem history_ops_preserve_invariant_witness :
    HistInvariant (pushHistory emptyEditor) ∧ HistInvariant (undo emptyEditor) ∧
      HistInvariant (redo emptyEditor) := by
  refine history_ops_preserve_invariant emptyEditor ?_
  constructor
  · simp [emptyEditor]
  · intro hne
    simp [emptyEditor] at hne

/-- Claim C6: a push whose snapshot is deep-equal to the entry at the
cursor is a no-op, and pushing twice in a row with unchanged content
leaves the log and the cursor exactly as after the first push. The two
bound hypotheses are the cursor range every editor state satisfies (they
follow from `HistInvariant`). -/
theorem push_idempotent (st : EditorState)
    (hlo : -1 ≤ st.historyIndex) (hhi : st.historyIndex ≤ (st.entries.length : Int) - 1) :
    (0 ≤ st.historyIndex → st.entries[st.historyIndex.toNat]? = some st.regions →
      pushHistory st = st) ∧
    pushHistory (pushHistory st) = pushHistory st := by
  constructor
  · intro ha hb
    exact pushHistory_noop st ⟨ha, hb⟩
  · by_cases hg : 0 ≤ st.historyIndex ∧ st.entries[st.historyIndex.toNat]? = some st.regions
    · rw [pushHistory_noop st hg]
      exact pushHistory_noop st hg
    · obtain ⟨he, hi, hr⟩ := pushHistory_append st hg
      apply pushHistory_noop
      rw [he, hi, hr]
      refine ⟨by omega, ?_⟩
      have htake : (st.entries.take (st.historyIndex + 1).toNat).length
          = (st.historyIndex + 1).toNat := by
        simp only [List.length_take]
        omega
      exact getElem?_append_singleton htake

/-- The state used by the C6 witness: one entry, cursor 0, regions
already edited away from that entry. -/
def stC6 : EditorState :=
  { emptyEditor with entries := [["a"]], historyIndex := 0, regions := ["b"] }

/-- Witness for C6 at a concrete state (one entry, cursor 0, edited
regions): the second push changes nothing. -/
theorem push_idempotent_witness :
    pushHistory (pushHistory stC6) = pushHistory stC6 := by
  refine (push_idempotent stC6 (by decide) ?_).2
  show (0 : Int) ≤ ((1 : Nat) : Int) - 1
  decide

/-- Fields of the editor that `pushHistory` never touches. -/
lemma pushHistory_preserves (st : EditorState) :
    (pushHistory st).nodes = st.nodes ∧ (pushHistory st).placeholderShown = st.placeholderShown ∧
    (pushHistory st).regions = st.regions ∧ (pushHistory st).status = st.status := by
  by_cases hg : 0 ≤ st.historyIndex ∧ st.entries[st.historyIndex.toNat]? = some st.regions
  · rw [pushHistory_noop st hg]
    exact ⟨rfl, rfl, rfl, rfl⟩
  · simp only [pushHistory]
    rw [if_neg hg]
    exact ⟨rfl, rfl, rfl, rfl⟩

/-- What `render` computes: the regions become the document-order
flattening of the nodes, the placeholder is shown exactly when the node
list is empty, and the history is untouched. -/
lemma render_spec (st : EditorState) :
    (render st).regions = flattenForest st.nodes ∧
    (render st).placeholderShown = st.nodes.isEmpty ∧
    (render st).entries = st.entries ∧
    (render st).historyIndex = st.historyIndex ∧
    (render st).nodes = st.nodes := by
  unfold render
  split
  · rename_i hemp
    have hnil : st.nodes = [] := by
      simpa [List.isEmpty_iff] using hemp
    rw [hnil]
    exact ⟨rfl, rfl, rfl, rfl, rfl⟩
  · rename_i hemp
    have : st.nodes.isEmpty = false := by
      simpa using hemp
    rw [this]
    exact ⟨rfl, rfl, rfl, rfl, rfl⟩

/-- The successful branch of `loadFile`: render then push, then report. -/
lemma loadFile_success_eq (f : UploadedFile) (doc : List SectionNode) (st : EditorState)
    (hacc : fileAccepted f = true) (hsize : f.ftext.length ≤ 1000000) :
    loadFile f (.returns doc) st
      = { pushHistory (render { st with nodes := doc }) with
            status := "File loaded successfully" } := by
  simp only [loadFile, hacc, not_true, if_false]
  rw [if_neg (by omega)]

/-- Claim C1 counterexample: loading a second document after a first one
does not reset the history to a single entry — the load succeeds and the
log afterwards has two entries, the first document's snapshot still
among them. -/
theorem load_does_not_reset_history :
    (loadFile fileA (.returns docB) (loadFile fileA (.returns docA) emptyEditor)).status
      = "File loaded successfully" ∧
    (loadFile fileA (.returns docB) (loadFile fileA (.returns docA) emptyEditor)).entries.length
      ≠ 1 := by
  constructor
  · rfl
  · decide

/-- Claim C1 as amended: a successful load does not reset the history
wholesale — it renders the new document and performs one `pushHistory` of
its snapshot. When that snapshot deep-equals the entry at the current
cursor (for instance reloading the same file), the log and the cursor are
unchanged; otherwise the entries beyond the cursor are truncated, the new
snapshot is appended, and the cursor advances to it. The log therefore
ends with a single entry only in the special cases where this one push
leaves it so, not after every load. -/
theorem load_appends_snapshot (f : UploadedFile) (doc : List SectionNode) (st : EditorState)
    (hacc : fileAccepted f = true) (hsize : f.ftext.length ≤ 1000000) :
    (loadFile f (.returns doc) st).status = "File loaded successfully" ∧
    ((0 ≤ st.historyIndex ∧
        st.entries[st.historyIndex.toNat]? = some (flattenForest doc)) →
      (loadFile f (.returns doc) st).entries = st.entries ∧
      (loadFile f (.returns doc) st).historyIndex = st.historyIndex) ∧
    (¬ (0 ≤ st.historyIndex ∧
        st.entries[st.historyIndex.toNat]? = some (flattenForest doc)) →
      (loadFile f (.returns doc) st).entries
        = st.entries.take (st.historyIndex + 1).toNat ++ [flattenForest doc] ∧
      (loadFile f (.returns doc) st).historyIndex = st.historyIndex + 1) := by
  rw [loadFile_success_eq f doc st hacc hsize]
  obtain ⟨hreg, _, hent, hidx, _⟩ := render_spec { st with nodes := doc }
  refine ⟨rfl, fun hsame => ?_, fun hnew => ?_⟩
  · have hg : 0 ≤ (render { st with nodes := doc }).historyIndex ∧
        (render { st with nodes := doc }).entries[(render { st with
          nodes := doc }).historyIndex.toNat]?
          = some (render { st with nodes := doc }).regions := by
      rw [hreg, hent, hidx]
      exact hsame
    rw [pushHistory_noop _ hg]
    exact ⟨hent, hidx⟩
  · have hg : ¬ (0 ≤ (render { st with nodes := doc }).historyIndex ∧
        (render { st with nodes := doc }).entries[(render { st with
          nodes := doc }).historyIndex.toNat]?
          = some (render { st with nodes := doc }).regions) := by
      rw [hreg, hent, hidx]
      exact hnew
    obtain ⟨he, hi, _⟩ := pushHistory_append _ hg
    constructor
    · show (pushHistory (render { st with nodes := doc })).entries = _
      rw [he, hreg, hent, hidx]
    · show (pushHistory (render { st with nodes := doc })).historyIndex = _
      rw [hi, hidx]

/-- Witness for C1 as amended, exercising both branches: loading a
one-section document into the fresh editor yields exactly its snapshot as
the single entry and cursor 0, and immediately reloading the same
document leaves that log and cursor unchanged. -/
theorem load_appends_snapshot_witness :
    (loadFile fileA (.returns docA) emptyEditor).entries = [["a"]] ∧
    (loadFile fileA (.returns docA) emptyEditor).historyIndex = 0 ∧
    (loadFile fileA (.returns docA) (loadFile fileA (.returns docA) emptyEditor)).entries
      = (loadFile fileA (.returns docA) emptyEditor).entries ∧
    (loadFile fileA (.returns docA) (loadFile fileA (.returns docA) emptyEditor)).historyIndex
      = (loadFile fileA (.returns docA) emptyEditor).historyIndex := by
  have h1 := (load_appends_snapshot fileA docA emptyEditor (by decide) (by decide)).2.2
    (by decide)
  have h2 := (load_appends_snapshot fileA docA
    (loadFile fileA (.returns docA) emptyEditor) (by decide) (by decide)).2.1
    (by decide)
  exact ⟨h1.1, h1.2, h2.1, h2.2⟩

/-- Claim C3 counterexample: when the parser throws, `loadFile` does not
degrade to an empty tree with the placeholder — the previously loaded
document (one node here) is kept and the placeholder is not shown; an
error status message is displayed instead. -/
theorem parser_throw_keeps_tree :
    (loadFile fileA .throws (loadFile fileA (.returns docA) emptyEditor)).nodes.length = 1 ∧
    (loadFile fileA .throws (loadFile fileA (.returns docA) emptyEditor)).placeholderShown
      = false ∧
    (loadFile fileA .throws (loadFile fileA (.returns docA) emptyEditor)).status
      = "Error loading file. Please check console for details." := by
  refine ⟨by decide, by decide, rfl⟩

/-- Claim C3 as amended: an absent parser degrades to the empty tree and
the placeholder with a success status, while a throwing parser is caught
by the try/catch — nothing of the document state changes and only the
transient error status message is shown; in neither case is the error
propagated upward. -/
theorem parse_degradation (f : UploadedFile) (st : EditorState)
    (hacc : fileAccepted f = true) (hsize : f.ftext.length ≤ 1000000) :
    ((loadFile f .absent st).nodes = [] ∧
     (loadFile f .absent st).placeholderShown = true ∧
     (loadFile f .absent st).status = "File loaded successfully") ∧
    ((loadFile f .throws st).nodes = st.nodes ∧
     (loadFile f .throws st).regions = st.regions ∧
     (loadFile f .throws st).entries = st.entries ∧
     (loadFile f .throws st).historyIndex = st.historyIndex ∧
     (loadFile f .throws st).placeholderShown = st.placeholderShown ∧
     (loadFile f .throws st).status
       = "Error loading file. Please check console for details.") := by
  have habs : loadFile f .absent st
      = { pushHistory (render { st with nodes := ([] : List SectionNode) }) with
            status := "File loaded successfully" } := by
    simp only [loadFile, hacc, not_true, if_false]
    rw [if_neg (by omega)]
  have hthr : loadFile f .throws st
      = { st with status := "Error loading file. Please check console for details." } := by
    simp only [loadFile, hacc, not_true, if_false]
    rw [if_neg (by omega)]
  constructor
  · rw [habs]
    obtain ⟨_, hph, _, _, hnd⟩ := render_spec { st with nodes := ([] : List SectionNode) }
    obtain ⟨hpn, hpp, _, _⟩ := pushHistory_preserves (render { st with nodes := ([] : List SectionNode) })
    refine ⟨?_, ?_, rfl⟩
    · show (pushHistory (render { st with nodes := ([] : List SectionNode) })).nodes = []
      rw [hpn, hnd]
    · show (pushHistory (render { st with nodes := ([] : List SectionNode) })).placeholderShown = true
      rw [hpp, hph]
      rfl
  · rw [hthr]
    exact ⟨rfl, rfl, rfl, rfl, rfl, rfl⟩

/-- Witness for C3 as amended, at the fresh editor with the accepted
file. -/
theorem parse_degradation_witness :
    (loadFile fileA .absent emptyEditor).nodes = [] ∧
    (loadFile fileA .throws emptyEditor).status
      = "Error loading file. Please check console for details." := by
  have h := parse_degradation fileA emptyEditor (by decide) (by decide)
  exact ⟨h.1.1, h.2.2.2.2.2.2⟩

/-! ### Edit sequences and branch truncation -/

/-- A completed edit: the user changes the regions to `rs` and the
debounced `pushHistory` fires. `applyEdits` runs a sequence of them. -/
def applyEdits (ss : List (List String)) (st : EditorState) : EditorState :=
  ss.foldl (fun s rs => pushHistory { s with regions := rs }) st

/-- Each snapshot in the sequence differs from the one before it (the
first from `cur`): the edits are the "distinct" edits of the claim, so
each one passes the deep-equality guard and is actually pushed. -/
def distinctChain : List String → List (List String) → Prop
  | _, [] => True
  | cur, s :: ss => s ≠ cur ∧ distinctChain s ss

/-- Running a chain of distinct edits from a state whose cursor sits on
the last entry appends exactly those snapshots and moves the cursor to
the new end. -/
lemma applyEdits_spec : ∀ (ss : List (List String)) (st : EditorState)
    (last : List String),
    st.entries.getLast? = some last →
    st.historyIndex = (st.entries.length : Int) - 1 →
    distinctChain last ss →
    (applyEdits ss st).entries = st.entries ++ ss ∧
    (applyEdits ss st).historyIndex = st.historyIndex + ss.length := by
  intro ss
  induction ss with
  | nil =>
    intro st last hlast hidx hd
    simp [applyEdits]
  | cons s ss ih =>
    intro st last hlast hidx hd
    have hne : st.entries ≠ [] := by
      intro hnil
      rw [hnil] at hlast
      exact Option.noConfusion hlast
    have hlen : 0 < st.entries.length := List.length_pos.mpr hne
    have hgetlast : st.entries[st.entries.length - 1]? = some last := by
      rw [← List.getLast?_eq_getElem?]
      exact hlast
    have hg : ¬ (0 ≤ (⟨st.nodes, s, st.entries, st.historyIndex, st.placeholderShown,
        st.status⟩ : EditorState).historyIndex ∧
        (⟨st.nodes, s, st.entries, st.historyIndex, st.placeholderShown,
          st.status⟩ : EditorState).entries[(⟨st.nodes, s, st.entries, st.historyIndex,
            st.placeholderShown, st.status⟩ : EditorState).historyIndex.toNat]?
          = some (⟨st.nodes, s, st.entries, st.historyIndex, st.placeholderShown,
            st.status⟩ : EditorState).regions) := by
      rintro ⟨-, hc⟩
      have h1 : st.historyIndex.toNat = st.entries.length - 1 := by omega
      rw [h1, hgetlast] at hc
      exact hd.1 (Option.some.injEq _ _ ▸ hc.symm)
    obtain ⟨he, hi, -⟩ := pushHistory_append _ hg
    set st' := pushHistory (⟨st.nodes, s, st.entries, st.historyIndex, st.placeholderShown,
      st.status⟩ : EditorState) with hst'
    have htoNat : (st.historyIndex + 1).toNat = st.entries.length := by omega
    have hent' : st'.entries = st.entries ++ [s] := by
      rw [he]
      simp only [htoNat, List.take_length]
    have hne' : st'.entries ≠ [] := by
      rw [hent']
      simp
    have hidx' : st'.historyIndex = (st'.entries.length : Int) - 1 := by
      rw [hent', hi]
      simp only [List.length_append, List.length_singleton]
      push_cast
      omega
    have hlast' : st'.entries.getLast? = some s := by
      rw [hent']
      exact List.getLast?_concat st.entries
    have hstep : applyEdits (s :: ss) st = applyEdits ss st' := rfl
    obtain ⟨hes, his⟩ := ih st' s hlast' hidx' hd.2
    rw [hstep, hes, his, hent', hi]
    constructor
    · rw [List.append_assoc]
      rfl
    · simp only [List.length_cons]
      push_cast
      omega

/-- Undoing `k` times when the cursor has at least `k` room: the log is
untouched and the cursor moves back by `k`. -/
lemma undo_iter : ∀ (k : Nat) (st : EditorState), (k : Int) ≤ st.historyIndex →
    (undo^[k] st).entries = st.entries ∧ (undo^[k] st).historyIndex = st.historyIndex - k := by
  intro k
  induction k with
  | zero =>
    intro st _
    simp
  | succ k ih =>
    intro st hk
    obtain ⟨he, hi⟩ := ih st (by omega)
    have hu : 0 < (undo^[k] st).historyIndex := by omega
    obtain ⟨hue, hui, -, -⟩ := undo_active _ hu
    rw [Function.iterate_succ_apply', hue, hui, he, hi]
    refine ⟨rfl, by push_cast; omega⟩

/-- Claim C4 counterexample, at N = 1 and k = 1: starting from a freshly
loaded document, one distinct edit, one undo and one new distinct edit
leave the log with 2 entries, but the claimed formula (N - k) + 1 gives 1
(the claim forgets the initial snapshot the load pushed). -/
theorem branch_truncation_cex :
    (pushHistory { undo (pushHistory { loadFile fileA (.returns docA) emptyEditor with
        regions := ["b"] }) with regions := ["c"] }).entries.length = 2 ∧
    (pushHistory { undo (pushHistory { loadFile fileA (.returns docA) emptyEditor with
        regions := ["b"] }) with regions := ["c"] }).entries.length ≠ (1 - 1) + 1 := by
  constructor
  · decide
  · decide

/-- Claim C4 as amended: from a freshly loaded state (one initial
snapshot, cursor 0), after N distinct edits, k ≤ N undos and one new
distinct edit, the log is the retained prefix of the first
(N - k) + 1 entries followed by the new snapshot — every redo state
beyond the cursor is discarded — so its length is (N - k) + 2, one more
than the claimed (N - k) + 1 because the initial snapshot of the load is
also in the log. -/
theorem branch_truncation (r0 : List String) (ss : List (List String)) (k : Nat)
    (snew : List String) (st : EditorState)
    (h0 : st.entries = [r0]) (h1 : st.historyIndex = 0)
    (hd : distinctChain r0 ss) (hk : k ≤ ss.length)
    (hnew : (r0 :: ss)[ss.length - k]? ≠ some snew) :
    (pushHistory { undo^[k] (applyEdits ss st) with regions := snew }).entries
      = (r0 :: ss).take (ss.length - k + 1) ++ [snew] ∧
    (pushHistory { undo^[k] (applyEdits ss st) with regions := snew }).entries.length
      = (ss.length - k) + 2 ∧
    (pushHistory { undo^[k] (applyEdits ss st) with regions := snew }).historyIndex
      = (ss.length : Int) - k + 1 := by
  have hidx : st.historyIndex = (st.entries.length : Int) - 1 := by
    rw [h0, h1]
    simp
  have hlast : st.entries.getLast? = some r0 := by
    rw [h0]
    rfl
  obtain ⟨hes, his⟩ := applyEdits_spec ss st r0 hlast hidx hd
  have hes' : (applyEdits ss st).entries = r0 :: ss := by
    rw [hes, h0]
    rfl
  have his' : (applyEdits ss st).historyIndex = (ss.length : Int) := by
    rw [his, h1]
    omega
  obtain ⟨hue, hui⟩ := undo_iter k (applyEdits ss st) (by omega)
  rw [hes'] at hue
  rw [his'] at hui
  set st2 := undo^[k] (applyEdits ss st) with hst2
  have hg : ¬ (0 ≤ (⟨st2.nodes, snew, st2.entries, st2.historyIndex, st2.placeholderShown,
      st2.status⟩ : EditorState).historyIndex ∧
      (⟨st2.nodes, snew, st2.entries, st2.historyIndex, st2.placeholderShown,
        st2.status⟩ : EditorState).entries[(⟨st2.nodes, snew, st2.entries, st2.historyIndex,
          st2.placeholderShown, st2.status⟩ : EditorState).historyIndex.toNat]?
        = some (⟨st2.nodes, snew, st2.entries, st2.historyIndex, st2.placeholderShown,
          st2.status⟩ : EditorState).regions) := by
    rintro ⟨-, hc⟩
    have h2 : st2.historyIndex.toNat = ss.length - k := by omega
    rw [h2, hue] at hc
    exact hnew hc
  obtain ⟨he, hi, -⟩ := pushHistory_append _ hg
  have htoNat : ((⟨st2.nodes, snew, st2.entries, st2.historyIndex, st2.placeholderShown,
      st2.status⟩ : EditorState).historyIndex + 1).toNat = ss.length - k + 1 := by
    show (st2.historyIndex + 1).toNat = ss.length - k + 1
    omega
  rw [he, hi, htoNat]
  have hent : (⟨st2.nodes, snew, st2.entries, st2.historyIndex, st2.placeholderShown,
      st2.status⟩ : EditorState).entries = r0 :: ss := hue
  rw [hent]
  have hlen : ((r0 :: ss).take (ss.length - k + 1)).length = ss.length - k + 1 := by
    simp only [List.length_take, List.length_cons]
    omega
  refine ⟨rfl, ?_, ?_⟩
  · simp only [List.length_append, hlen, List.length_singleton]
  · show st2.historyIndex + 1 = (ss.length : Int) - k + 1
    omega

/-- Witness for C4 as amended, at N = 2, k = 1: the log ends with the
retained prefix of two entries plus the new snapshot, three entries in
all, cursor at 2. -/
theorem branch_truncation_witness :
    (pushHistory { undo^[1] (applyEdits [["b"], ["c"]]
        { emptyEditor with entries := [["a"]], historyIndex := 0, regions := ["a"] })
          with regions := ["d"] }).entries
      = [["a"], ["b"], ["d"]] ∧
    (pushHistory { undo^[1] (applyEdits [["b"], ["c"]]
        { emptyEditor with entries := [["a"]], historyIndex := 0, regions := ["a"] })
          with regions := ["d"] }).entries.length = (2 - 1) + 2 := by
  have h := branch_truncation ["a"] [["b"], ["c"]] 1 ["d"]
    { emptyEditor with entries := [["a"]], historyIndex := 0, regions := ["a"] }
    rfl rfl (by exact ⟨by decide, by decide, trivial⟩) (by decide) (by decide)
  exact ⟨h.1, h.2.1⟩

/-! ### Dotted positional numbering -/

/-- The default node used with `List.getD` over node lists. -/
def dummyNode : SectionNode := .mk 0 "" "" []

/-- `renderNode` hands its `number` argument through to the block. -/
lemma renderNode_number (n : SectionNode) (p : String) : (renderNode n p).number = p := by
  cases n
  rfl

/-- `renderNode` builds the children with the dotted numbers counter. -/
lemma renderNode_children (n : SectionNode) (p : String) :
    (renderNode n p).children = renderChildren n.children p 1 := by
  cases n
  rfl

/-- The number span text of a block. -/
lemma renderNode_numberText (n : SectionNode) (p : String) :
    (renderNode n p).numberText = if 0 < n.level then p ++ " " else "" := by
  cases n
  rfl

/-- Indexing the top-level render loop. -/
lemma renderTop_getD : ∀ (ns : List SectionNode) (i j : Nat), j < ns.length →
    (renderTop ns i).getD j default = renderNode (ns.getD j dummyNode) (toString (i + j)) := by
  intro ns
  induction ns with
  | nil =>
    intro i j h
    simp at h
  | cons n ns ih =>
    intro i j h
    cases j with
    | zero =>
      simp only [renderTop, List.getD_cons_zero, Nat.add_zero]
    | succ j =>
      simp only [renderTop, List.getD_cons_succ]
      rw [ih (i + 1) j (by simpa using h)]
      congr 2
      omega

/-- Indexing the child render loop. -/
lemma renderChildren_getD : ∀ (cs : List SectionNode) (p : String) (j0 j : Nat), j < cs.length →
    (renderChildren cs p j0).getD j default
      = renderNode (cs.getD j dummyNode) (p ++ "." ++ toString (j0 + j)) := by
  intro cs
  induction cs with
  | nil =>
    intro p j0 j h
    simp at h
  | cons c cs ih =>
    intro p j0 j h
    cases j with
    | zero =>
      simp only [renderChildren, List.getD_cons_zero, Nat.add_zero]
    | succ j =>
      simp only [renderChildren, List.getD_cons_succ]
      rw [ih p (j0 + 1) j (by simpa using h)]
      congr 3
      omega

/-- Claim C9: the top-level node at 1-based sibling index i is numbered
toString i; the child at 1-based index j of a node numbered p is numbered
p dot j; and a node with level 0 suppresses its own number span while its
children (previous clause, which never looks at the level) still carry
their dotted numbers. -/
theorem dotted_numbering :
    (∀ (ns : List SectionNode) (j : Nat), j < ns.length →
        ((renderForest ns).getD j default).number = toString (j + 1)) ∧
    (∀ (n : SectionNode) (p : String) (j : Nat), j < n.children.length →
        ((renderNode n p).children.getD j default).number = p ++ "." ++ toString (j + 1)) ∧
    (∀ (n : SectionNode) (p : String),
        (renderNode n p).numberText = if n.level = 0 then "" else p ++ " ") := by
  refine ⟨?_, ?_, ?_⟩
  · intro ns j h
    unfold renderForest
    rw [renderTop_getD ns 1 j h, renderNode_number]
    congr 1
    omega
  · intro n p j h
    rw [renderNode_children, renderChildren_getD n.children p 1 j h, renderNode_number]
    congr 2
    omega
  · intro n p
    rw [renderNode_numberText]
    rcases Nat.eq_zero_or_pos n.level with h | h
    · rw [if_neg (by omega), if_pos h]
    · rw [if_pos h, if_neg (by omega)]

/-- Witness for C9: the second top-level section of the two-section
document is numbered 2; the second child of a node numbered 3 is numbered
3.2; a level-0 node shows no number. -/
theorem dotted_numbering_witness :
    ((renderForest docC).getD 1 default).number = "2" ∧
    ((renderNode (.mk 1 "A" "a" [.mk 2 "B" "b" [], .mk 2 "C" "c" []]) "3").children.getD 1
        default).number = "3.2" ∧
    (renderNode (.mk 0 "T" "t" []) "7").numberText = "" := by
  obtain ⟨h1, h2, h3⟩ := dotted_numbering
  refine ⟨?_, ?_, ?_⟩
  · rw [h1 docC 1 (by decide)]
    decide
  · rw [h2 (.mk 1 "A" "a" [.mk 2 "B" "b" [], .mk 2 "C" "c" []]) "3" 1 (by decide)]
    decide
  · rw [h3 (.mk 0 "T" "t" []) "7"]
    decide

/-! ### Reachable states and the undo-redo round trip -/

/-- Restoring a full-length snapshot reproduces it exactly (the JavaScript
or-else-empty fallback is invisible when the snapshot covers every
region). -/
lemma map_range_getD (l : List String) :
    (List.range l.length).map (fun i => l.getD i "") = l := by
  apply List.ext_getElem
  · simp
  · intro i h1 h2
    simp only [List.getElem_map, List.getElem_range, List.getD_eq_getElem?_getD]
    rw [List.getElem?_eq_some.mpr ⟨h2, rfl⟩]
    rfl

/-- The synchronisation invariant: the cursor is valid and the regions are
exactly what restoring the entry at the cursor would write. -/
def Synced (st : EditorState) : Prop :=
  0 ≤ st.historyIndex ∧ st.historyIndex < (st.entries.length : Int) ∧
  st.regions = (List.range st.regions.length).map
    (fun i => (st.entries.getD st.historyIndex.toNat []).getD i "")

/-- One user-visible transition of the loaded editor: a completed edit
(regions replaced, debounced push fired), an undo, or a redo. -/
inductive EditorStep : EditorState → EditorState → Prop
  | editPush (st : EditorState) (rs : List String) (hlen : rs.length = st.regions.length) :
      EditorStep st (pushHistory { st with regions := rs })
  | undoStep (st : EditorState) : EditorStep st (undo st)
  | redoStep (st : EditorState) : EditorStep st (redo st)

/-- The state right after `loadFile` succeeds on a fresh editor: render
the document, push the initial snapshot. -/
def loadState (doc : List SectionNode) : EditorState :=
  pushHistory (render { emptyEditor with nodes := doc })

/-- States reachable from some freshly loaded document by any sequence of
completed edits, undos and redos. -/
def Reachable (st : EditorState) : Prop :=
  ∃ doc, Relation.ReflTransGen EditorStep (loadState doc) st

/-- A freshly loaded state is synchronised. -/
lemma synced_loadState (doc : List SectionNode) : Synced (loadState doc) := by
  obtain ⟨-, -, hent, hidx, -⟩ := render_spec { emptyEditor with nodes := doc }
  have hidx0 : (render { emptyEditor with nodes := doc }).historyIndex = -1 := hidx.trans rfl
  have hent0 : (render { emptyEditor with nodes := doc }).entries = [] := hent.trans rfl
  have hg : ¬ (0 ≤ (render { emptyEditor with nodes := doc }).historyIndex ∧
      (render { emptyEditor with nodes := doc }).entries[(render { emptyEditor with
        nodes := doc }).historyIndex.toNat]?
        = some (render { emptyEditor with nodes := doc }).regions) := by
    rintro ⟨hc, -⟩
    rw [hidx0] at hc
    exact absurd hc (by decide)
  obtain ⟨he, hi, hr⟩ := pushHistory_append _ hg
  have hent1 : (loadState doc).entries
      = [(render { emptyEditor with nodes := doc }).regions] := by
    show (pushHistory _).entries = _
    rw [he, hent0, hidx0]
    rfl
  have hidx1 : (loadState doc).historyIndex = 0 := by
    show (pushHistory _).historyIndex = 0
    rw [hi, hidx0]
    rfl
  have hreg1 : (loadState doc).regions
      = (render { emptyEditor with nodes := doc }).regions := hr
  refine ⟨by rw [hidx1], by rw [hidx1, hent1]; simp, ?_⟩
  rw [hreg1, hidx1, hent1]
  rw [show ((0 : Int)).toNat = 0 from rfl, List.getD_cons_zero]
  exact (map_range_getD _).symm

/-- Every editor step preserves the synchronisation invariant. -/
lemma synced_step {a b : EditorState} (hs : Synced a) (hstep : EditorStep a b) : Synced b := by
  obtain ⟨h0, h1, h2⟩ := hs
  cases hstep with
  | editPush rs hlen =>
    by_cases hg : pushGuard (⟨a.nodes, rs, a.entries, a.historyIndex, a.placeholderShown,
        a.status⟩ : EditorState)
    · rw [pushHistory_noop _ hg]
      obtain ⟨hge, hc⟩ := hg
      obtain ⟨hlt, -⟩ := List.getElem?_eq_some.mp hc
      refine ⟨hge, by omega, ?_⟩
      show rs = (List.range rs.length).map
        (fun i => (a.entries.getD a.historyIndex.toNat []).getD i "")
      have hcd : a.entries.getD a.historyIndex.toNat [] = rs := by
        rw [List.getD_eq_getElem?_getD, hc]
        rfl
      rw [hcd]
      exact (map_range_getD rs).symm
    · obtain ⟨he, hi, hr⟩ := pushHistory_append _ hg
      have htake : ((⟨a.nodes, rs, a.entries, a.historyIndex, a.placeholderShown,
          a.status⟩ : EditorState).entries.take ((⟨a.nodes, rs, a.entries, a.historyIndex,
            a.placeholderShown, a.status⟩ : EditorState).historyIndex + 1).toNat).length
          = (a.historyIndex + 1).toNat := by
        show (a.entries.take (a.historyIndex + 1).toNat).length = (a.historyIndex + 1).toNat
        simp only [List.length_take]
        omega
      refine ⟨?_, ?_, ?_⟩
      · rw [hi]
        show (0 : Int) ≤ a.historyIndex + 1
        omega
      · rw [hi, he]
        simp only [List.length_append, List.length_take, List.length_singleton]
        show a.historyIndex + 1 < _
        push_cast
        omega
      · rw [hi, he, hr]
        show rs = (List.range rs.length).map
          (fun i => ((_ ++ [rs]).getD (a.historyIndex + 1).toNat []).getD i "")
        have hg2 : ((a.entries.take (a.historyIndex + 1).toNat) ++ [rs]).getD
            (a.historyIndex + 1).toNat [] = rs := by
          rw [List.getD_eq_getElem?_getD, getElem?_append_singleton htake]
          rfl
        rw [hg2]
        exact (map_range_getD rs).symm
  | undoStep =>
    by_cases hu : 0 < a.historyIndex
    · obtain ⟨hue, hui, hur, -⟩ := undo_active a hu
      refine ⟨by rw [hui]; omega, by rw [hui, hue]; omega, ?_⟩
      rw [hur, hue, hui]
      simp only [List.length_map, List.length_range]
    · rw [undo_noop a hu]
      exact ⟨h0, h1, h2⟩
  | redoStep =>
    by_cases hr : a.historyIndex < (a.entries.length : Int) - 1
    · obtain ⟨hre, hri, hrr, -⟩ := redo_active a hr
      refine ⟨by rw [hri]; omega, by rw [hri, hre]; omega, ?_⟩
      rw [hrr, hre, hri]
      simp only [List.length_map, List.length_range]
    · rw [redo_noop a hr]
      exact ⟨h0, h1, h2⟩

/-- Any reachable state is synchronised. -/
lemma reachable_synced {st : EditorState} (h : Reachable st) : Synced st := by
  obtain ⟨doc, hwalk⟩ := h
  induction hwalk with
  | refl => exact synced_loadState doc
  | tail hab hbc ih => exact synced_step ih hbc

/-- Claim C7: in any state reached by a sequence of completed edits,
undos and redos after a load, with at least one undoable state, undoing
and then redoing restores every content region byte-identically, and the
cursor and the log return to exactly what they were before the undo. -/
theorem undo_redo_roundtrip (st : EditorState) (hr : Reachable st)
    (hcur : 0 < st.historyIndex) :
    (redo (undo st)).regions = st.regions ∧
    (redo (undo st)).historyIndex = st.historyIndex ∧
    (redo (undo st)).entries = st.entries := by
  obtain ⟨hpos, hlt, hsyn⟩ := reachable_synced hr
  obtain ⟨hue, hui, hur, -⟩ := undo_active st hcur
  have hr2 : (undo st).historyIndex < ((undo st).entries.length : Int) - 1 := by
    rw [hui, hue]
    omega
  obtain ⟨hre, hri, hrr, -⟩ := redo_active _ hr2
  refine ⟨?_, ?_, ?_⟩
  · rw [hrr, hur, hue, hui]
    simp only [List.length_map, List.length_range]
    rw [show st.historyIndex - 1 + 1 = st.historyIndex from by omega]
    exact hsyn.symm
  · rw [hri, hui]
    omega
  · rw [hre, hue]

/-- The state used by the C7 witness: load the one-section document, then
complete one edit. -/
def stC7 : EditorState := pushHistory { loadState docA with regions := ["b"] }

/-- Witness for C7: at the concrete reachable state with one edit after
the load, undo followed by redo restores the regions, the cursor and the
log. -/
theorem undo_redo_roundtrip_witness :
    (redo (undo stC7)).regions = stC7.regions ∧
    (redo (undo stC7)).historyIndex = stC7.historyIndex := by
  have hreach : Reachable stC7 :=
    ⟨docA, Relation.ReflTransGen.tail Relation.ReflTransGen.refl
      (EditorStep.editPush (loadState docA) ["b"] (by decide))⟩
  have h := undo_redo_roundtrip stC7 hreach (by decide)
  exact ⟨h.1, h.2.1⟩

/-! ### The shared debounce timer -/

/-- A due timer with nothing pending does nothing. -/
lemma fireDue_none (t : Nat) (te : TimedEditor) (h : te.debounceTimer = none) :
    fireDue t te = te := by
  unfold fireDue
  rw [h]

/-- A pending timer whose instant has not yet arrived does not fire. -/
lemma fireDue_notYet (t ft : Nat) (te : TimedEditor) (h : te.debounceTimer = some ft)
    (hlt : ¬ ft ≤ t) : fireDue t te = te := by
  simp only [fireDue, h]
  rw [if_neg hlt]

/-- Claim C10: the debounce timer is one editor-wide field, so an input
event in any region cancels the push pending from a prior edit in any
other region: two edits to two different regions less than 500 ms apart
produce a single `pushHistory` of the combined snapshot (both region
updates), growing the log by at most one entry — not one snapshot per
region. -/
theorem debounce_coalesces (te : TimedEditor) (t1 t2 i1 i2 : Nat) (v1 v2 : String)
    (hnone : te.debounceTimer = none) (hord : t1 ≤ t2) (hlt : t2 < t1 + 500)
    (_hne : i1 ≠ i2) :
    runInputs [(t1, i1, v1), (t2, i2, v2)] te
      = ⟨pushHistory { te.ed with regions := (te.ed.regions.set i1 v1).set i2 v2 }, none⟩ ∧
    (runInputs [(t1, i1, v1), (t2, i2, v2)] te).ed.entries.length
      ≤ te.ed.entries.length + 1 := by
  have hrun : runInputs [(t1, i1, v1), (t2, i2, v2)] te
      = ⟨pushHistory { te.ed with regions := (te.ed.regions.set i1 v1).set i2 v2 },
          none⟩ := by
    show runInputs [(t2, i2, v2)] (applyInput t1 i1 v1 (fireDue t1 te)) = _
    rw [fireDue_none t1 te hnone]
    show flushTimer (applyInput t2 i2 v2 (fireDue t2 (applyInput t1 i1 v1 te))) = _
    rw [fireDue_notYet t2 (t1 + 500) (applyInput t1 i1 v1 te) rfl (by omega)]
    rfl
  refine ⟨hrun, ?_⟩
  rw [hrun]
  exact pushHistory_length_le _

/-- The timed editor used by the C10 witness: two regions loaded, no
pending timer. -/
def teC10 : TimedEditor := ⟨loadFile fileA (.returns docC) emptyEditor, none⟩

/-- Witness for C10: edits to region 0 at time 10 and region 1 at time
309 coalesce into the single combined push. -/
theorem debounce_coalesces_witness :
    runInputs [(10, 0, "p"), (309, 1, "q")] teC10
      = ⟨pushHistory { teC10.ed with regions := (teC10.ed.regions.set 0 "p").set 1 "q" },
          none⟩ :=
  (debounce_coalesces teC10 10 309 0 1 "p" "q" rfl (by decide) (by decide) (by decide)).1

end LatexUI
